import Mathlib

/-!
# Verification of the RivalSearchMCP retrieval-and-extraction pipeline

A shallow embedding, in Lean 4, of the code paths of RivalSearchMCP that the
specification's testable properties talk about:

* `src/core/bypass.py` — `detect_paywall` (pure substring scan, embedded
  concretely together with the indicator lists from `src/config/paywall.py`);
* `src/core/fetch.py` — `base_fetch_url` (the bypass/archive/paywall
  escalation ladder) and `batch_rival_retrieve`;
* `src/core/search/core/multi_engines.py` — `BaseSearchEngine`:
  `_fetch_page_content` (visited-set guard), `_extract_internal_links`
  (same-domain filter), `_extract_second_level_content` and
  `_extract_third_level_content_concurrent` (the recursive link-follower),
  `_clean_text`;
* `src/core/search/utils/content_extractor.py` —
  `ContentExtractor.extract_main_content` (the extraction fallback cascade);
* `src/core/search/engines/bing/bing_engine.py` — `BingSearchEngine._search_rss`.

External library effects (HTTP requests, the HTML parsers `selectolax` and
`BeautifulSoup`, OCR) are modelled as oracle parameters: a function or record
field stands for "what the library call returned", with `Option` capturing the
exception-or-absence cases that the Python code catches.  Everything the
Python code computes itself (control flow, thresholds, slicing, filtering,
string surgery, the visited set, the indicator scan) is embedded directly.

One module-level fact baked into the model: in this repository the modules
`src.utils.content` and `src.utils.parsing` do not exist, so the guarded
module import in `content_extractor.py` fails and
`CONTENT_UTILS_AVAILABLE` is `False`; the "Method 1" block of
`extract_main_content` is dead code.
-/

/-! ## String utilities

Executable substring test (Python's `needle in haystack`), whitespace
collapsing and stripping (Python's `re.sub(r'\s+', ' ', text)` and
`str.strip()`), modelled over `List Char`. -/

/-- `charsPrefixOf n h` is true when `n` is a prefix of `h`. -/
def charsPrefixOf : List Char → List Char → Bool
  | [], _ => true
  | _ :: _, [] => false
  | a :: as, b :: bs => a = b && charsPrefixOf as bs

/-- `charsInfixOf n h` is true when `n` occurs contiguously inside `h`:
Python's `n in h` for strings. -/
def charsInfixOf (n : List Char) : List Char → Bool
  | [] => charsPrefixOf n []
  | b :: bs => charsPrefixOf n (b :: bs) || charsInfixOf n bs

/-- Python `needle in haystack` on strings. -/
def strContains (haystack needle : String) : Bool :=
  charsInfixOf needle.toList haystack.toList

/-- One pass of Python's `re.sub(r'\s+', ' ', s)`: every maximal run of
whitespace becomes a single space.  The boolean argument records whether the
previous character (already emitted) was part of a whitespace run. -/
def collapseWsAux : Bool → List Char → List Char
  | _, [] => []
  | prevWs, c :: cs =>
    if c.isWhitespace then
      if prevWs then collapseWsAux true cs
      else ' ' :: collapseWsAux true cs
    else c :: collapseWsAux false cs

/-- Python's `str.strip()`: drop whitespace from both ends. -/
def stripChars (l : List Char) : List Char :=
  ((l.dropWhile Char.isWhitespace).reverse.dropWhile Char.isWhitespace).reverse

/-- `re.sub(r'\s+', ' ', text).strip()` as used throughout the code base. -/
def collapseAndStrip (s : String) : String :=
  String.mk (stripChars (collapseWsAux false s.toList))

/-- `BaseSearchEngine._clean_text` (multi_engines.py, lines 410-414):
`if not text: return ""` then `re.sub(r'\s+', ' ', text).strip()`. -/
def cleanText (text : String) : String :=
  if text = "" then "" else collapseAndStrip text

/-! ## Paywall detection (`src/core/bypass.py`, lines 134-167)

`detect_paywall` lower-cases the content and looks for any indicator from
`PAYWALL_INDICATORS` (src/config/paywall.py) extended with the hard-coded
`enhanced_indicators` list. -/

/-- `PAYWALL_INDICATORS` from `src/config/paywall.py`. -/
def PAYWALL_INDICATORS : List String :=
  ["subscribe", "paywall", "sign in to read", "become a member",
   "login to continue"]

/-- The `enhanced_indicators` list built inside `detect_paywall`
(`PAYWALL_INDICATORS + [...]`, duplicates kept as in the source). -/
def enhancedIndicators : List String :=
  PAYWALL_INDICATORS ++
  ["subscribe to continue", "become a member", "premium content",
   "exclusive access", "member only", "sign in to read", "login required",
   "registration required", "free trial", "limited access",
   "premium article", "subscriber only", "pay to read", "purchase article",
   "buy access", "upgrade to read", "premium subscription",
   "digital subscription", "newsletter signup", "create account",
   "join now", "unlock article", "premium content", "exclusive story",
   "member exclusive"]

/-- Python `str.lower()`, character by character (`String.mk` of the
char-wise lowering; equivalent to `String.toLower`, but stated over the
character list so that concrete instances evaluate). -/
def strToLower (s : String) : String := String.mk (s.data.map Char.toLower)

/-- `detect_paywall(content)`: `any(indicator in content.lower() for ...)`. -/
def detectPaywall (content : String) : Bool :=
  enhancedIndicators.any (fun ind => strContains (strToLower content) ind)

/-- `ARCHIVE_FALLBACKS` from `src/config/archives.py`. -/
def ARCHIVE_FALLBACKS : List String :=
  ["https://archive.is/?url=",
   "https://12ft.io/proxy?q=",
   "https://webcache.googleusercontent.com/search?q=cache:"]

/-! ## The fetch orchestrator (`src/core/fetch.py`, `base_fetch_url`)

The network-facing calls are oracles.  `Option String` models a variable that
Python may leave at `None` (client raised) or set to a possibly empty
response body; Python's truthiness test `if not content` is `falsy`. -/

/-- Outcomes of the external calls made by one `base_fetch_url` invocation.
`none` always models "the call raised and the `except` branch ran". -/
structure FetchOracle where
  /-- `cloudscraper and random.random() < 0.3`: whether the stealth client
  is attempted at all. -/
  useCloudscraper : Bool
  /-- body returned by `scraper.get(url).text`; `none` = raised. -/
  cloudscraperText : Option String
  /-- body returned by the plain `httpx` client; `none` = raised. -/
  httpxText : Option String
  /-- result of `get_archive_url(url)` (that helper catches everything and
  returns `None` at worst, so it is a plain `Option`). -/
  archiveUrl : Option String
  /-- body of the `httpx` GET of the archive-fallback URL; `none` = raised. -/
  archiveFetchText : String → Option String
  /-- paywall-bypass loop: GET of `archive + url` giving
  `(status_code, text)`; `none` = raised. -/
  archiveResp : String → Option (Nat × String)
  /-- `process_images_ocr` results; the surrounding `try` turns a raised
  exception into "no OCR text", i.e. `[]`. -/
  ocrTexts : List String

/-- Python truthiness of the `content` variable: falsy iff `None` or `""`. -/
def falsy : Option String → Bool
  | none => true
  | some s => s.isEmpty

/-- `content` after the cloudscraper attempt (lines 31-43) and the httpx
attempt (lines 45-61): httpx runs only when `not content`, and on an httpx
exception `content` is set to `None` (line 61). -/
def contentAfterClients (o : FetchOracle) : Option String :=
  let c1 := if o.useCloudscraper then o.cloudscraperText else none
  if falsy c1 then o.httpxText else c1

/-- `content` after the archive fallback (lines 63-74): attempted only when
`not content`; on `get_archive_url` returning `None` or the GET raising,
`content` is left unchanged. -/
def contentAfterArchive (o : FetchOracle) : Option String :=
  let c2 := contentAfterClients o
  if falsy c2 then
    match o.archiveUrl with
    | some au =>
      match o.archiveFetchText au with
      | some t => some t
      | none => c2
    | none => c2
  else c2

/-- The paywall-bypass loop body (lines 79-92): walk `ARCHIVE_FALLBACKS`,
GET `archive + url`; on status 200 with content that does not itself trip
`detect_paywall`, replace `content` and `break`; otherwise (non-200,
paywalled copy, or exception) continue with the next archive. -/
def paywallLoop (o : FetchOracle) (url : String) :
    List String → String → String
  | [], content => content
  | a :: rest, content =>
    match o.archiveResp (a ++ url) with
    | some (status, text) =>
      if status = 200 then
        if detectPaywall text = false then text
        else paywallLoop o url rest content
      else paywallLoop o url rest content
    | none => paywallLoop o url rest content

/-- `content` after the paywall check (lines 77-92): the loop runs only
when `content and detect_paywall(content)`. -/
def contentAfterPaywall (o : FetchOracle) (url : String) : Option String :=
  match contentAfterArchive o with
  | none => none
  | some c =>
    if c ≠ "" && detectPaywall c then some (paywallLoop o url ARCHIVE_FALLBACKS c)
    else some c

/-- The message of the `ValueError` that escapes `base_fetch_url`: the inner
`raise ValueError(f"Failed to fetch content from {url}")` (line 95) is caught
by the outer handler which re-raises
`ValueError(f"Fetch failed: {str(e)}")` (line 110). -/
def fetchErrMsg (url : String) : String :=
  "Fetch failed: Failed to fetch content from " ++ url

/-- OCR post-processing (lines 97-104): when `ocr_results` is non-empty,
`content += "\n\nImage Texts:\n" + "\n".join(ocr_results)`. -/
def withOcr (o : FetchOracle) (t : String) : String :=
  if o.ocrTexts = [] then t
  else t ++ "\n\nImage Texts:\n" ++ String.intercalate "\n" o.ocrTexts

/-- `base_fetch_url(url)` (src/core/fetch.py, lines 17-110).  `.error`
models the `ValueError` propagating to the caller, `.ok` a normal return. -/
def baseFetchUrl (o : FetchOracle) (url : String) : Except String String :=
  match contentAfterPaywall o url with
  | none => .error (fetchErrMsg url)
  | some t =>
    if t = "" then .error (fetchErrMsg url)
    else .ok (withOcr o t)

/-! ## Batch retrieval (`src/core/fetch.py`, `batch_rival_retrieve`)

One task per resource, `asyncio.gather(..., return_exceptions=True)` joins
them in task-creation order (which is input order), then each exception is
replaced by an error string naming the resource at the same index.  The
`fetch` oracle gives each task's outcome: `.error e` models a task that
raised an exception whose `str` is `e`. -/

def batchRivalRetrieve (fetch : String → Except String String)
    (resources : List String) : List String :=
  let results := resources.map fetch
  List.zipWith
    (fun resource result =>
      match result with
      | .error e => "Error fetching " ++ resource ++ ": " ++ e
      | .ok t => t)
    resources results

/-! ## `BaseSearchEngine` state and `_fetch_page_content`
(`src/core/search/core/multi_engines.py`, lines 131-145)

The per-engine-session state is the `visited_urls` set (a Python `set`,
modelled as a list queried by membership).  The network is again an oracle
`net : String → Option String` (`none` = the request raised, the `except`
branch logged and returned `None`).

The check-then-add on the visited set contains no `await` point in the
source, so under the single-threaded event loop it is atomic; sequential
state-threading is therefore a faithful model even for the concurrently
gathered link-follower tasks.

Each call also reports the list of URLs for which it actually issued a
network request (`[]` or `[url]`), so that theorems can count real I/O. -/

structure EngineState where
  visited : List String
deriving DecidableEq, Repr

/-- `_fetch_page_content(url)`: return `None` immediately for a visited URL;
otherwise add the URL to `visited_urls` *before* the request, then issue the
request, returning `None` if it raised. -/
def fetchPageContent (net : String → Option String) (s : EngineState)
    (url : String) : Option String × EngineState × List String :=
  if url ∈ s.visited then (none, s, [])
  else
    let s' : EngineState := ⟨url :: s.visited⟩
    (net url, s', [url])

/-- A straight-line sequence of `_fetch_page_content` calls against one
engine session, collecting every issued network request. -/
def runFetches (net : String → Option String) (s : EngineState) :
    List String → List (Option String) × EngineState × List String
  | [] => ([], s, [])
  | u :: rest =>
    let (r, s1, q1) := fetchPageContent net s u
    let (rs, s2, q2) := runFetches net s1 rest
    (r :: rs, s2, q1 ++ q2)

/-! ## `_extract_internal_links`
(`src/core/search/core/multi_engines.py`, lines 178-231)

`urljoin` and `netloc` stand for `urllib.parse.urljoin` and
`urlparse(url).netloc` (the body of `_extract_domain`, lines 403-408).  The
anchors the two HTML parsers deliver are oracles:

* Method 1 (selectolax) runs under one `try`; it either completes having
  seen some href list, or raises part-way with a prefix of its appends
  already in `links` (the list mutates in place and survives the fall-through
  to Method 2);
* Method 2 (BeautifulSoup) wraps each anchor in its own `try/except
  continue`, so its oracle is simply the list of successfully read hrefs.
  The `html.parser`/`lxml`-recover constructors are total on strings, so no
  top-level exception path remains and the outer `except` returning `[]`
  is dead.

Both methods append `urljoin(base_url, href)` only when
`_extract_domain(absolute) == _extract_domain(base_url)`; afterwards
`list(set(links))[:10]` deduplicates (set order unspecified; `List.dedup`
keeps first occurrences — membership, which the theorems use, agrees) and
caps at 10. -/

/-- Outcome of the selectolax pass of `_extract_internal_links`. -/
inductive Sel1Outcome where
  /-- the pass finished normally having iterated over these hrefs -/
  | completed (hrefs : List String)
  /-- the pass raised after appending the links arising from this prefix
  of hrefs -/
  | failed (sofar : List String)

/-- `_extract_domain(url)` (lines 403-408): `urlparse(url).netloc`, with the
parse modelled as the total oracle `netloc`. -/
def extractDomain (netloc : String → String) (url : String) : String :=
  netloc url

/-- The shared per-href body: `absolute_url = urljoin(base_url, href)`,
appended when its domain equals the base URL's domain. -/
def filterSameDomain (urljoin : String → String → String)
    (netloc : String → String) (base : String) (hrefs : List String)
    (links : List String) : List String :=
  hrefs.foldl
    (fun acc href =>
      let absoluteUrl := urljoin base href
      if extractDomain netloc absoluteUrl = extractDomain netloc base then
        acc ++ [absoluteUrl]
      else acc)
    links

/-- `_extract_internal_links(html_content, base_url)`. -/
def extractInternalLinks (selAvail : Bool)
    (urljoin : String → String → String) (netloc : String → String)
    (sel1 : Sel1Outcome) (soupHrefs : List String) (base : String) :
    List String :=
  if selAvail then
    match sel1 with
    | .completed hrefs =>
      let links := filterSameDomain urljoin netloc base hrefs []
      if links ≠ [] then links.dedup.take 10
      else (filterSameDomain urljoin netloc base soupHrefs links).dedup.take 10
    | .failed sofar =>
      let links := filterSameDomain urljoin netloc base sofar []
      (filterSameDomain urljoin netloc base soupHrefs links).dedup.take 10
  else
    (filterSameDomain urljoin netloc base soupHrefs []).dedup.take 10

/-! ## The recursive link-follower
(`src/core/search/core/multi_engines.py`, lines 233-313)

`_extract_second_level_content` and `_extract_third_level_content_concurrent`
gather one task per link (task order = link order; sequential folding is
faithful, see the `_fetch_page_content` note) and then assemble a dict,
*skipping* every task whose `result_data` is the empty dict `{}` — which is
exactly what a task returns when its fetch failed or its link was already
visited.  A successful task's dict always carries its keys, so "empty" and
"failed" coincide; we model a task result as `link × Option entry`.

The content-extraction helpers `_extract_title`/`_extract_main_content` are
oracles `eT eM : String → String` (they are total wrappers over
BeautifulSoup, returning `""` on any failure), and `_extract_internal_links`
is the oracle `eL : String → String → List String` (content, base url);
theorems about fan-out hold for *arbitrary* `eL`, i.e. regardless of how
many links a page exposes.

Requests are tagged with their depth: `0` for the origin page, `1` for a
second-level fetch, `2` for a third-level fetch. -/

/-- The per-link dict built at the third level (lines 292-297): title,
`third_main[:300] + "..."` preview, and content length.  It has no field for
further links or deeper content: depth 2 is structurally terminal. -/
structure ThirdEntry where
  title : String
  contentPreview : String
  contentLength : Nat
deriving DecidableEq, Repr

/-- The per-link dict built at the second level (lines 251-261); the
`third_level` key is added only when `internal_links` is non-empty. -/
structure SecondEntry where
  title : String
  contentPreview : String
  contentLength : Nat
  internalLinks : List String
  thirdLevel : Option (List (String × ThirdEntry))
deriving DecidableEq, Repr

/-- `s[:n] + "..." if len(s) > n else s`. -/
def previewOf (n : Nat) (s : String) : String :=
  if n < s.length then s.take n ++ "..." else s

/-- Python dict assignment `d[k] = v` on an insertion-ordered
association list: overwrite in place if the key exists, else append. -/
def dictInsert {α : Type} (m : List (String × α)) (k : String) (v : α) :
    List (String × α) :=
  if m.any (fun p => p.1 = k) then
    m.map (fun p => if p.1 = k then (k, v) else p)
  else m ++ [(k, v)]

/-- The assembly loop shared by both levels (lines 274-278 and 307-311):
`for result in results: ... if result_data: d[link] = result_data`. -/
def assembleEntries {α : Type} (rs : List (String × Option α)) :
    List (String × α) :=
  rs.foldl
    (fun acc p =>
      match p.2 with
      | some e => dictInsert acc p.1 e
      | none => acc)
    []

/-- `process_third_level_link(link)` (lines 286-300): fetch; on no content
(or on any caught exception) return `(link, {})`, else build the dict. -/
def processThirdLevelLink (net : String → Option String)
    (eT eM : String → String) (s : EngineState) (link : String) :
    (String × Option ThirdEntry) × EngineState × List (Nat × String) :=
  let fr := fetchPageContent net s link
  match fr.1 with
  | none => ((link, none), fr.2.1, fr.2.2.map (fun u => (2, u)))
  | some c =>
    let thirdMain := eM c
    ((link, some ⟨eT c, previewOf 300 thirdMain, thirdMain.length⟩),
     fr.2.1, fr.2.2.map (fun u => (2, u)))

/-- The gather of third-level tasks, in task-creation order. -/
def gatherThird (net : String → Option String) (eT eM : String → String)
    (s : EngineState) :
    List String →
      List (String × Option ThirdEntry) × EngineState × List (Nat × String)
  | [] => ([], s, [])
  | l :: rest =>
    let (r, s1, q1) := processThirdLevelLink net eT eM s l
    let (rs, s2, q2) := gatherThird net eT eM s1 rest
    (r :: rs, s2, q1 ++ q2)

/-- `_extract_third_level_content_concurrent(third_links)`
(lines 282-313). -/
def extractThirdLevelContentConcurrent (net : String → Option String)
    (eT eM : String → String) (s : EngineState) (thirdLinks : List String) :
    List (String × ThirdEntry) × EngineState × List (Nat × String) :=
  let g := gatherThird net eT eM s thirdLinks
  (assembleEntries g.1, g.2.1, g.2.2)

/-- `process_second_level_link(link)` (lines 239-267): fetch; on no content
(or any caught exception) return `(link, {})`; else extract main content and
internal links, and when the internal links are non-empty recurse into the
first 2 of them at the third level. -/
def processSecondLevelLink (net : String → Option String)
    (eT eM : String → String) (eL : String → String → List String)
    (s : EngineState) (link : String) :
    (String × Option SecondEntry) × EngineState × List (Nat × String) :=
  let fr := fetchPageContent net s link
  match fr.1 with
  | none => ((link, none), fr.2.1, fr.2.2.map (fun u => (1, u)))
  | some c =>
    let mainContent := eM c
    let internalLinks := eL c link
    if internalLinks ≠ [] then
      let tl := extractThirdLevelContentConcurrent net eT eM fr.2.1
        (internalLinks.take 2)
      ((link, some ⟨eT c, previewOf 500 mainContent, mainContent.length,
                   internalLinks, some tl.1⟩),
       tl.2.1, fr.2.2.map (fun u => (1, u)) ++ tl.2.2)
    else
      ((link, some ⟨eT c, previewOf 500 mainContent, mainContent.length,
                   internalLinks, none⟩),
       fr.2.1, fr.2.2.map (fun u => (1, u)))

/-- The gather of second-level tasks, in task-creation order. -/
def gatherSecond (net : String → Option String) (eT eM : String → String)
    (eL : String → String → List String) (s : EngineState) :
    List String →
      List (String × Option SecondEntry) × EngineState × List (Nat × String)
  | [] => ([], s, [])
  | l :: rest =>
    let (r, s1, q1) := processSecondLevelLink net eT eM eL s l
    let (rs, s2, q2) := gatherSecond net eT eM eL s1 rest
    (r :: rs, s2, q1 ++ q2)

/-- `_extract_second_level_content(url, internal_links, max_links=3)`
(lines 233-280): tasks for `internal_links[:max_links]`, gathered and
assembled.  The `url` parameter is unused in the source body and kept for
fidelity. -/
def extractSecondLevelContent (net : String → Option String)
    (eT eM : String → String) (eL : String → String → List String)
    (s : EngineState) (url : String) (internalLinks : List String)
    (maxLinks : Nat) :
    List (String × SecondEntry) × EngineState × List (Nat × String) :=
  let _ := url
  let g := gatherSecond net eT eM eL s (internalLinks.take maxLinks)
  (assembleEntries g.1, g.2.1, g.2.2)

/-- The per-result content-extraction block of an engine's `search`
(`bing_engine.py`, lines 41-55; the other engines share the shape): fetch
the origin page (depth 0), extract its internal links, and run
`_extract_second_level_content` with the default `max_links=3`. -/
def followOriginPage (net : String → Option String)
    (eT eM : String → String) (eL : String → String → List String)
    (s : EngineState) (targetUrl : String) :
    Option (List String × List (String × SecondEntry)) × EngineState ×
      List (Nat × String) :=
  let fr := fetchPageContent net s targetUrl
  match fr.1 with
  | none => (none, fr.2.1, fr.2.2.map (fun u => (0, u)))
  | some c =>
    let internalLinks := eL c targetUrl
    let sl := extractSecondLevelContent net eT eM eL fr.2.1 targetUrl
      internalLinks 3
    (some (internalLinks, sl.1), sl.2.1,
     fr.2.2.map (fun u => (0, u)) ++ sl.2.2)

/-! ## The content-extraction cascade
(`src/core/search/utils/content_extractor.py`,
`ContentExtractor.extract_main_content`, lines 39-183)

In this repository the guarded import of `src.utils.content` /
`src.utils.parsing` fails (those modules do not exist), so
`CONTENT_UTILS_AVAILABLE` is `False` and the "Method 1" block is dead; the
cascade is Methods 2-6.  The two HTML parsers are oracles:

* `selCss sel` — selectolax `HTMLParser(html).css_first(sel)` followed by
  `element.text(separator=" ", strip=True)`; `none` covers "no element" and
  any per-selector exception (each selector sits in its own
  `try/except continue`);
* `soupCss sel` — BeautifulSoup `select_one(sel).get_text(...)`, same
  convention;
* `bodyCleaned` — Method 4's body text after decomposing
  script/style/nav/footer/header/aside/menu;
* `titleText` — Method 6's `soup.find("title").get_text()` (the `<title>`
  element is not among the decomposed tags, and `get_text` is untrimmed).

The BeautifulSoup constructor itself is total on arbitrary strings (both the
pure-python parser and lxml-recover accept anything), so the outer
`except ... return ""` has no remaining trigger: the function is total, which
is the model's rendering of "never raises".

Method 5 operates on the raw string and is embedded directly:
`re.sub(r'<[^>]+>', '', html)` then whitespace collapse + strip. -/

/-- The parse oracles for one HTML input. -/
structure HtmlDoc where
  raw : String
  selCss : String → Option String
  soupCss : String → Option String
  bodyCleaned : Option String
  titleText : Option String

/-- `CONTENT_UTILS_AVAILABLE` (content_extractor.py, lines 27-33): the
`try` imports `src.utils.content` and `src.utils.parsing`, which are absent
from the repository, so the flag is `False`. -/
def CONTENT_UTILS_AVAILABLE : Bool := false

/-- The selector priority list shared by Methods 2 and 3
(lines 69-81 and 113-125). -/
def contentSelectors : List String :=
  ["main", "[role=\"main\"]", ".main-content", ".content", ".post-content",
   ".article-content", "#content", "#main", ".entry-content", ".post-body",
   ".article-body"]

/-- One selector loop: return the first selector whose extracted text
exceeds 100 characters; "no element", "exception" and "too short" all fall
through to the next selector. -/
def firstLongMatch (css : String → Option String) :
    List String → Option String
  | [] => none
  | sel :: rest =>
    match css sel with
    | some content =>
      if 100 < content.length then some content else firstLongMatch css rest
    | none => firstLongMatch css rest

/-- Helper: `(l.dropWhile p).length ≤ l.length`. -/
theorem dropWhile_length_le (p : Char → Bool) (l : List Char) :
    (l.dropWhile p).length ≤ l.length := by
  induction l with
  | nil => simp
  | cons c cs ih =>
    by_cases hp : p c
    · rw [List.dropWhile_cons_of_pos hp]
      exact Nat.le_trans ih (Nat.le_succ _)
    · rw [List.dropWhile_cons_of_neg hp]

/-- `re.sub(r'<[^>]+>', '', html)` scanning helper: at a `<`, the pattern
matches iff at least one non-`>` character is followed by a `>`; greediness
of `[^>]+` cannot cross a `>`, so the match always ends at the *first* `>`.
On a match, return the input after that `>`; otherwise (`<>` or an
unterminated tag) report no match. -/
def matchTag (rest : List Char) : Option (List Char) :=
  if rest.takeWhile (fun c => c ≠ '>') = [] then none
  else if rest.dropWhile (fun c => c ≠ '>') = [] then none
  else some (rest.dropWhile (fun c => c ≠ '>')).tail

theorem matchTag_length {rest r : List Char} (h : matchTag rest = some r) :
    r.length < rest.length := by
  unfold matchTag at h
  by_cases hi : rest.takeWhile (fun c => c ≠ '>') = []
  · rw [if_pos hi] at h
    exact Option.noConfusion h
  · rw [if_neg hi] at h
    by_cases hc : rest.dropWhile (fun c => c ≠ '>') = []
    · rw [if_pos hc] at h
      exact Option.noConfusion h
    · rw [if_neg hc] at h
      have hr : (rest.dropWhile (fun c => c ≠ '>')).tail = r :=
        Option.some_inj.mp h
      have h1 : (rest.dropWhile (fun c => (c ≠ '>' : Bool))).tail.length + 1 =
          (rest.dropWhile (fun c => (c ≠ '>' : Bool))).length := by
        cases hdw : rest.dropWhile (fun c => (c ≠ '>' : Bool)) with
        | nil => exact absurd hdw hc
        | cons a as => rfl
      have h2 := dropWhile_length_le (fun c => (c ≠ '>' : Bool)) rest
      have h3 : rest.takeWhile (fun c => (c ≠ '>' : Bool)) ≠ [] := hi
      have h4 : (rest.takeWhile (fun c => (c ≠ '>' : Bool))).length +
          (rest.dropWhile (fun c => (c ≠ '>' : Bool))).length = rest.length := by
        rw [← List.length_append, List.takeWhile_append_dropWhile]
      have h5 : 0 < (rest.takeWhile (fun c => (c ≠ '>' : Bool))).length :=
        List.length_pos.mpr h3
      subst hr
      omega

/-- Remove every occurrence of `<[^>]+>`, scanning left to right as
`re.sub` does (a `<` that does not begin a full match is kept verbatim and
scanning resumes at the next character). -/
def stripTags (l : List Char) : List Char :=
  match l with
  | [] => []
  | c :: rest =>
    if c = '<' then
      match h : matchTag rest with
      | some remainder => stripTags remainder
      | none => c :: stripTags rest
    else c :: stripTags rest
termination_by l.length
decreasing_by
  · simp only [List.length_cons]
    have := matchTag_length h
    omega
  · simp
  · simp

/-- Method 5 (lines 154-165): strip tags, collapse whitespace, strip. -/
def regexExtract (html : String) : String :=
  String.mk (stripChars (collapseWsAux false (stripTags html.toList)))

/-- Methods 5 and 6 of the cascade (lines 154-176), split out so the
cascade reads top-down: the regex extraction with the `> 100` guard, then
the title-only last resort with its lower `> 10` guard, then `""`. -/
def extractMainContentTail (doc : HtmlDoc) : String :=
  let textContent := regexExtract doc.raw
  if 100 < textContent.length then textContent
  else
    match doc.titleText with
    | some t => if 10 < t.length then t else ""
    | none => ""

/-- Methods 3 and 4 of the cascade (lines 108-152), falling through to
`extractMainContentTail`: the BeautifulSoup selector loop, then the
decomposed-body extraction, each with the `> 100` guard. -/
def extractMainContentSoup (doc : HtmlDoc) : String :=
  match firstLongMatch doc.soupCss contentSelectors with
  | some c => c
  | none =>
    match doc.bodyCleaned with
    | some c => if 100 < c.length then c else extractMainContentTail doc
    | none => extractMainContentTail doc

/-- Method 2 of the cascade (lines 63-106): the selectolax selector loop,
then the selectolax body attempt, run only when selectolax imported.
`none` means "fall through to Method 3". -/
def extractMainContentSel (selAvail : Bool) (doc : HtmlDoc) : Option String :=
  if selAvail then
    match firstLongMatch doc.selCss contentSelectors with
    | some c => some c
    | none =>
      match doc.selCss "body" with
      | some c => if 100 < c.length then some c else none
      | none => none
  else none

/-- `ContentExtractor.extract_main_content(html_content)`: the empty-input
short-circuit, then Methods 2-6 in order (`CONTENT_UTILS_AVAILABLE` being
`False`, Method 1 is skipped). -/
def extractMainContent (selAvail : Bool) (doc : HtmlDoc) : String :=
  if doc.raw = "" then ""
  else
    match extractMainContentSel selAvail doc with
    | some c => c
    | none => extractMainContentSoup doc

/-! ## Bing RSS parsing
(`src/core/search/engines/bing/bing_engine.py`, `_search_rss`, lines 64-107)

The XML soup is an oracle: the feed is the list of `<item>` elements in
document order, each contributing the text of its `title`, `link` and
`description` children (`''` standing for a missing child, exactly the
`... if isinstance(...) else ''` fallback in the source).  The loop walks
`enumerate(items[:num_results])`, cleans title and description with
`_clean_text`, and appends a result with `position = i + 1` only when both
the cleaned title and the raw link are non-empty. -/

/-- One `<item>` of the RSS feed, as the parser hands it over. -/
structure RssItem where
  title : String
  link : String
  description : String
deriving DecidableEq, Repr

/-- The fields of a `MultiSearchResult` that `_search_rss` fills from the
feed (`engine`, `timestamp`, `html_structure` and `raw_html` carry
request-level data outside the parsing logic). -/
structure RssResult where
  title : String
  url : String
  description : String
  position : Nat
deriving DecidableEq, Repr

/-- The `for i, item in enumerate(items[:num_results])` body, with `i` the
running enumerate index. -/
def searchRssLoop : Nat → List RssItem → List RssResult
  | _, [] => []
  | i, item :: rest =>
    let title := cleanText item.title
    let link := item.link
    let description := cleanText item.description
    if title ≠ "" && link ≠ "" then
      ⟨title, link, description, i + 1⟩ :: searchRssLoop (i + 1) rest
    else searchRssLoop (i + 1) rest

/-- `_search_rss(query, num_results)` parsing stage: results built from the
first `num_results` feed items. -/
def searchRss (items : List RssItem) (numResults : Nat) : List RssResult :=
  searchRssLoop 0 (items.take numResults)

/-! ## Helper lemmas -/

theorem charsPrefixOf_refl (l : List Char) : charsPrefixOf l l = true := by
  induction l with
  | nil => rfl
  | cons a as ih => simp [charsPrefixOf, ih]

theorem charsInfixOf_self (n : List Char) : charsInfixOf n n = true := by
  cases n with
  | nil => rfl
  | cons b bs => simp [charsInfixOf, charsPrefixOf_refl]

theorem charsInfixOf_append_left (n h : List Char) :
    charsInfixOf n (h ++ n) = true := by
  induction h with
  | nil => simpa using charsInfixOf_self n
  | cons b bs ih => simp [charsInfixOf, ih]

/-- A string contains any of its suffixes. -/
theorem strContains_append_right (pre s : String) :
    strContains (pre ++ s) s = true := by
  unfold strContains
  show charsInfixOf s.data (pre ++ s).data = true
  rw [String.data_append]
  exact charsInfixOf_append_left s.data pre.data

theorem batchRivalRetrieve_getElem (fetch : String → Except String String) :
    ∀ (resources : List String) (i : Nat),
      (batchRivalRetrieve fetch resources)[i]? =
        (resources[i]?).map (fun r =>
          match fetch r with
          | .error e => "Error fetching " ++ r ++ ": " ++ e
          | .ok t => t) := by
  intro resources
  induction resources with
  | nil => intro i; simp [batchRivalRetrieve]
  | cons r rs ih =>
    intro i
    cases i with
    | zero => simp [batchRivalRetrieve]
    | succ j =>
      have := ih j
      simpa [batchRivalRetrieve] using this

/-- C6: For every input list of URLs, batch retrieval returns a list of the
same length whose i-th element corresponds to the i-th input URL (input
order preserved regardless of task completion order — `asyncio.gather`
stores each task's result at the task's index), with each per-item
exception converted into the error string
`"Error fetching {resources[i]}: ..."` naming that URL; the batch call
itself never raises (the model is a total function, mirroring
`return_exceptions=True` absorbing every task exception). -/
theorem batch_rival_retrieve_order_preserved :
    ∀ (fetch : String → Except String String) (resources : List String),
      (batchRivalRetrieve fetch resources).length = resources.length ∧
      ∀ i : Nat,
        (batchRivalRetrieve fetch resources)[i]? =
          (resources[i]?).map (fun r =>
            match fetch r with
            | .error e => "Error fetching " ++ r ++ ": " ++ e
            | .ok t => t) := by
  intro fetch resources
  refine ⟨?_, batchRivalRetrieve_getElem fetch resources⟩
  unfold batchRivalRetrieve
  simp

/-- C9: Querying the RSS-based engine with `num_results=5` against a
well-formed feed of 7 `<item>` entries (each with a title that survives
`_clean_text` and a non-empty link) yields exactly 5 results, the i-th
being the i-th feed item with `position = i` (1-based), i.e. ranks
1,2,3,4,5 assigned in feed order. -/
theorem bing_rss_seven_items_five_results :
    ∀ it0 it1 it2 it3 it4 it5 it6 : RssItem,
      (∀ it ∈ [it0, it1, it2, it3, it4, it5, it6],
        cleanText it.title ≠ "" ∧ it.link ≠ "") →
      searchRss [it0, it1, it2, it3, it4, it5, it6] 5 =
        [⟨cleanText it0.title, it0.link, cleanText it0.description, 1⟩,
         ⟨cleanText it1.title, it1.link, cleanText it1.description, 2⟩,
         ⟨cleanText it2.title, it2.link, cleanText it2.description, 3⟩,
         ⟨cleanText it3.title, it3.link, cleanText it3.description, 4⟩,
         ⟨cleanText it4.title, it4.link, cleanText it4.description, 5⟩] := by
  intro it0 it1 it2 it3 it4 it5 it6 h
  have h0 := h it0 (by simp)
  have h1 := h it1 (by simp)
  have h2 := h it2 (by simp)
  have h3 := h it3 (by simp)
  have h4 := h it4 (by simp)
  have b0 : (cleanText it0.title ≠ "" && it0.link ≠ "") = true := by
    simp [h0.1, h0.2]
  have b1 : (cleanText it1.title ≠ "" && it1.link ≠ "") = true := by
    simp [h1.1, h1.2]
  have b2 : (cleanText it2.title ≠ "" && it2.link ≠ "") = true := by
    simp [h2.1, h2.2]
  have b3 : (cleanText it3.title ≠ "" && it3.link ≠ "") = true := by
    simp [h3.1, h3.2]
  have b4 : (cleanText it4.title ≠ "" && it4.link ≠ "") = true := by
    simp [h4.1, h4.2]
  show searchRssLoop 0 [it0, it1, it2, it3, it4] = _
  rw [searchRssLoop, if_pos b0, searchRssLoop, if_pos b1, searchRssLoop,
    if_pos b2, searchRssLoop, if_pos b3, searchRssLoop, if_pos b4,
    searchRssLoop]

/-- Concrete instance of `bing_rss_seven_items_five_results`: a feed of
seven items with plain titles and links. -/
theorem bing_rss_seven_items_five_results_witness :
    searchRss
      [⟨"T1", "L1", "D1"⟩, ⟨"T2", "L2", "D2"⟩, ⟨"T3", "L3", "D3"⟩,
       ⟨"T4", "L4", "D4"⟩, ⟨"T5", "L5", "D5"⟩, ⟨"T6", "L6", "D6"⟩,
       ⟨"T7", "L7", "D7"⟩] 5 =
      [⟨cleanText "T1", "L1", cleanText "D1", 1⟩,
       ⟨cleanText "T2", "L2", cleanText "D2", 2⟩,
       ⟨cleanText "T3", "L3", cleanText "D3", 3⟩,
       ⟨cleanText "T4", "L4", cleanText "D4", 4⟩,
       ⟨cleanText "T5", "L5", cleanText "D5", 5⟩] :=
  bing_rss_seven_items_five_results
    ⟨"T1", "L1", "D1"⟩ ⟨"T2", "L2", "D2"⟩ ⟨"T3", "L3", "D3"⟩
    ⟨"T4", "L4", "D4"⟩ ⟨"T5", "L5", "D5"⟩ ⟨"T6", "L6", "D6"⟩
    ⟨"T7", "L7", "D7"⟩ (by decide)


theorem firstLongMatch_length (css : String → Option String) :
    ∀ (sels : List String) (c : String),
      firstLongMatch css sels = some c → 100 < c.length := by
  intro sels
  induction sels with
  | nil => intro c h; exact Option.noConfusion h
  | cons sel rest ih =>
    intro c h
    unfold firstLongMatch at h
    cases hcss : css sel with
    | none => simp only [hcss] at h; exact ih c h
    | some v =>
      simp only [hcss] at h
      by_cases hv : 100 < v.length
      · rw [if_pos hv, Option.some_inj] at h
        exact h ▸ hv
      · rw [if_neg hv] at h
        exact ih c h

theorem firstLongMatch_none (css : String → Option String) :
    ∀ (sels : List String),
      firstLongMatch css sels = none →
      ∀ sel ∈ sels, ∀ c, css sel = some c → c.length ≤ 100 := by
  intro sels
  induction sels with
  | nil => intro _ sel hsel; exact absurd hsel (List.not_mem_nil sel)
  | cons s rest ih =>
    intro h sel hsel c hc
    unfold firstLongMatch at h
    rcases List.mem_cons.mp hsel with hes | htl
    · subst hes
      simp only [hc] at h
      by_cases hv : 100 < c.length
      · rw [if_pos hv] at h; exact Option.noConfusion h
      · omega
    · cases hcss : css s with
      | none => simp only [hcss] at h; exact ih h sel htl c hc
      | some v =>
        simp only [hcss] at h
        by_cases hv : 100 < v.length
        · rw [if_pos hv] at h; exact Option.noConfusion h
        · rw [if_neg hv] at h; exact ih h sel htl c hc

/-- All content-producing stages of the cascade came in at or below their
thresholds: every selectolax selector hit, the selectolax body, every
BeautifulSoup selector hit and the cleaned body text are ≤ 100 characters,
the regex extraction is ≤ 100 characters, and the title is ≤ 10
characters. -/
def allStagesBelowThreshold (selAvail : Bool) (doc : HtmlDoc) : Prop :=
  (selAvail = true →
    (∀ sel ∈ contentSelectors, ∀ c, doc.selCss sel = some c →
      c.length ≤ 100) ∧
    (∀ c, doc.selCss "body" = some c → c.length ≤ 100)) ∧
  (∀ sel ∈ contentSelectors, ∀ c, doc.soupCss sel = some c →
    c.length ≤ 100) ∧
  (∀ c, doc.bodyCleaned = some c → c.length ≤ 100) ∧
  (regexExtract doc.raw).length ≤ 100 ∧
  (∀ t, doc.titleText = some t → t.length ≤ 10)

theorem extractMainContentTail_cases (doc : HtmlDoc) :
    (100 < (extractMainContentTail doc).length ∨
      (doc.titleText = some (extractMainContentTail doc) ∧
        10 < (extractMainContentTail doc).length) ∨
      extractMainContentTail doc = "") ∧
    (extractMainContentTail doc = "" →
      (regexExtract doc.raw).length ≤ 100 ∧
      (∀ t, doc.titleText = some t → t.length ≤ 10)) := by
  unfold extractMainContentTail
  by_cases hre : 100 < (regexExtract doc.raw).length
  · rw [if_pos hre]
    refine ⟨Or.inl hre, fun hempty => ?_⟩
    rw [hempty] at hre
    simp at hre
  · rw [if_neg hre]
    split
    next t ht =>
      by_cases htl : 10 < t.length
      · rw [if_pos htl]
        refine ⟨Or.inr (Or.inl ⟨ht, htl⟩), fun hempty => ?_⟩
        rw [hempty] at htl
        simp at htl
      · rw [if_neg htl]
        refine ⟨Or.inr (Or.inr rfl), fun _ => ⟨by omega, ?_⟩⟩
        intro t' ht'
        rw [ht, Option.some_inj] at ht'
        subst ht'
        omega
    next ht =>
      refine ⟨Or.inr (Or.inr rfl), fun _ => ⟨by omega, ?_⟩⟩
      intro t hcontra
      rw [ht] at hcontra
      exact Option.noConfusion hcontra

theorem extractMainContentSoup_cases (doc : HtmlDoc) :
    (100 < (extractMainContentSoup doc).length ∨
      (doc.titleText = some (extractMainContentSoup doc) ∧
        10 < (extractMainContentSoup doc).length) ∨
      extractMainContentSoup doc = "") ∧
    (extractMainContentSoup doc = "" →
      (∀ sel ∈ contentSelectors, ∀ c, doc.soupCss sel = some c →
        c.length ≤ 100) ∧
      (∀ c, doc.bodyCleaned = some c → c.length ≤ 100) ∧
      (regexExtract doc.raw).length ≤ 100 ∧
      (∀ t, doc.titleText = some t → t.length ≤ 10)) := by
  unfold extractMainContentSoup
  split
  next c hm3 =>
    have hc := firstLongMatch_length doc.soupCss contentSelectors c hm3
    refine ⟨Or.inl hc, fun hempty => ?_⟩
    rw [hempty] at hc
    simp at hc
  next hm3 =>
    have hsoup := firstLongMatch_none doc.soupCss contentSelectors hm3
    split
    next c hb =>
      by_cases hcl : 100 < c.length
      · rw [if_pos hcl]
        refine ⟨Or.inl hcl, fun hempty => ?_⟩
        rw [hempty] at hcl
        simp at hcl
      · rw [if_neg hcl]
        have htail := extractMainContentTail_cases doc
        refine ⟨htail.1, fun hempty => ?_⟩
        have h56 := htail.2 hempty
        refine ⟨hsoup, ?_, h56.1, h56.2⟩
        intro c' hc'
        rw [hb, Option.some_inj] at hc'
        subst hc'
        omega
    next hb =>
      have htail := extractMainContentTail_cases doc
      refine ⟨htail.1, fun hempty => ?_⟩
      have h56 := htail.2 hempty
      refine ⟨hsoup, ?_, h56.1, h56.2⟩
      intro c' hc'
      rw [hb] at hc'
      exact Option.noConfusion hc'

theorem extractMainContentSel_some (selAvail : Bool) (doc : HtmlDoc)
    (c : String) (h : extractMainContentSel selAvail doc = some c) :
    100 < c.length := by
  unfold extractMainContentSel at h
  by_cases hs : selAvail = true
  · rw [if_pos hs] at h
    split at h
    next v hm2 =>
      rw [Option.some_inj] at h
      exact h ▸ firstLongMatch_length doc.selCss contentSelectors v hm2
    next hm2 =>
      split at h
      next v hbody =>
        by_cases hv : 100 < v.length
        · rw [if_pos hv, Option.some_inj] at h
          exact h ▸ hv
        · rw [if_neg hv] at h
          exact Option.noConfusion h
      next hbody => exact Option.noConfusion h
  · rw [if_neg hs] at h
    exact Option.noConfusion h

theorem extractMainContentSel_none (selAvail : Bool) (doc : HtmlDoc)
    (h : extractMainContentSel selAvail doc = none) (hs : selAvail = true) :
    (∀ sel ∈ contentSelectors, ∀ c, doc.selCss sel = some c →
      c.length ≤ 100) ∧
    (∀ c, doc.selCss "body" = some c → c.length ≤ 100) := by
  unfold extractMainContentSel at h
  rw [if_pos hs] at h
  split at h
  next v hm2 => exact Option.noConfusion h
  next hm2 =>
    refine ⟨firstLongMatch_none doc.selCss contentSelectors hm2, ?_⟩
    intro c hc
    split at h
    next v hbody =>
      rw [hbody, Option.some_inj] at hc
      subst hc
      by_cases hv : 100 < v.length
      · rw [if_pos hv] at h
        exact Option.noConfusion h
      · omega
    next hbody =>
      rw [hbody] at hc
      exact Option.noConfusion hc

/-- C1: For every HTML input (any raw string, any parser behaviour),
`extract_main_content` is total — the model's rendering of "never raises" —
and its result is either text longer than the declared 100-character
minimum threshold, or the page title under the title-only stage's lower
10-character threshold, or the empty string; and the empty string comes
back only when the input was empty or every stage, title-only extraction
included, yielded nothing above its threshold. -/
theorem extract_main_content_threshold :
    ∀ (selAvail : Bool) (doc : HtmlDoc),
      (100 < (extractMainContent selAvail doc).length ∨
        (doc.titleText = some (extractMainContent selAvail doc) ∧
          10 < (extractMainContent selAvail doc).length) ∨
        extractMainContent selAvail doc = "") ∧
      (extractMainContent selAvail doc = "" →
        doc.raw = "" ∨ allStagesBelowThreshold selAvail doc) := by
  intro selAvail doc
  unfold extractMainContent
  by_cases hraw : doc.raw = ""
  · rw [if_pos hraw]
    exact ⟨Or.inr (Or.inr rfl), fun _ => Or.inl hraw⟩
  · rw [if_neg hraw]
    split
    next c hm2 =>
      have hc := extractMainContentSel_some selAvail doc c hm2
      refine ⟨Or.inl hc, fun hempty => ?_⟩
      rw [hempty] at hc
      simp at hc
    next hm2 =>
      have hsoup := extractMainContentSoup_cases doc
      refine ⟨hsoup.1, fun hempty => Or.inr ?_⟩
      have h36 := hsoup.2 hempty
      exact ⟨fun hs => extractMainContentSel_none selAvail doc hm2 hs,
        h36.1, h36.2.1, h36.2.2.1, h36.2.2.2⟩

/-- Concrete instance of `extract_main_content_threshold`: on the empty
document with inert parsers the cascade returns `""` and the emptiness
characterisation applies. -/
theorem extract_main_content_threshold_witness :
    (⟨"", fun _ => none, fun _ => none, none, none⟩ : HtmlDoc).raw = "" ∨
      allStagesBelowThreshold false
        ⟨"", fun _ => none, fun _ => none, none, none⟩ :=
  (extract_main_content_threshold false
    ⟨"", fun _ => none, fun _ => none, none, none⟩).2 rfl

/-! ## Visited-set theorems -/

theorem fetchPageContent_of_visited (net : String → Option String)
    (s : EngineState) (url : String) (h : url ∈ s.visited) :
    fetchPageContent net s url = (none, s, []) := by
  unfold fetchPageContent
  rw [if_pos h]

theorem fetchPageContent_visited_mono (net : String → Option String)
    (s : EngineState) (url : String) :
    s.visited ⊆ ((fetchPageContent net s url).2.1).visited := by
  unfold fetchPageContent
  by_cases h : url ∈ s.visited
  · rw [if_pos h]
    exact fun a ha => ha
  · rw [if_neg h]
    exact List.subset_cons_self url s.visited

theorem fetchPageContent_mem_visited (net : String → Option String)
    (s : EngineState) (url : String) :
    url ∈ ((fetchPageContent net s url).2.1).visited := by
  unfold fetchPageContent
  by_cases h : url ∈ s.visited
  · rw [if_pos h]; exact h
  · rw [if_neg h]; exact List.mem_cons_self url s.visited

theorem fetchPageContent_reqs_fresh (net : String → Option String)
    (s : EngineState) (url : String) :
    ∀ u ∈ (fetchPageContent net s url).2.2, u ∉ s.visited := by
  unfold fetchPageContent
  by_cases h : url ∈ s.visited
  · rw [if_pos h]; intro u hu; exact absurd hu (List.not_mem_nil u)
  · rw [if_neg h]
    intro u hu
    rw [List.mem_singleton.mp hu]
    exact h

theorem runFetches_visited_mono (net : String → Option String) :
    ∀ (urls : List String) (s : EngineState),
      s.visited ⊆ ((runFetches net s urls).2.1).visited := by
  intro urls
  induction urls with
  | nil => intro s; exact fun a ha => ha
  | cons u rest ih =>
    intro s
    show s.visited ⊆ _
    unfold runFetches
    exact fun a ha =>
      ih (fetchPageContent net s u).2.1 (fetchPageContent_visited_mono net s u ha)

theorem runFetches_reqs_fresh (net : String → Option String) :
    ∀ (urls : List String) (s : EngineState),
      ∀ u ∈ (runFetches net s urls).2.2, u ∉ s.visited := by
  intro urls
  induction urls with
  | nil => intro s u hu; exact absurd hu (List.not_mem_nil u)
  | cons v rest ih =>
    intro s u hu
    unfold runFetches at hu
    rcases List.mem_append.mp hu with h1 | h2
    · exact fetchPageContent_reqs_fresh net s v u h1
    · intro hmem
      exact ih (fetchPageContent net s v).2.1 u h2
        (fetchPageContent_visited_mono net s v hmem)

theorem runFetches_reqs_nodup (net : String → Option String) :
    ∀ (urls : List String) (s : EngineState),
      ((runFetches net s urls).2.2).Nodup := by
  intro urls
  induction urls with
  | nil => intro s; exact List.nodup_nil
  | cons v rest ih =>
    intro s
    unfold runFetches
    refine List.Nodup.append ?_ (ih (fetchPageContent net s v).2.1) ?_
    · unfold fetchPageContent
      by_cases h : v ∈ s.visited
      · rw [if_pos h]; exact List.nodup_nil
      · rw [if_neg h]; exact List.nodup_singleton v
    · intro u h1 h2
      have hv : u = v := by
        revert h1
        unfold fetchPageContent
        by_cases h : v ∈ s.visited
        · rw [if_pos h]; intro h1; exact absurd h1 (List.not_mem_nil u)
        · rw [if_neg h]; intro h1; exact List.mem_singleton.mp h1
      subst hv
      exact runFetches_reqs_fresh net rest (fetchPageContent net s u).2.1 u h2
        (fetchPageContent_mem_visited net s u)

/-- C4: Within one engine session (one `visited_urls` lifetime),
`_fetch_page_content` never issues a network request for a URL already in
the visited set — such a call returns `None`, leaves the state unchanged
and performs no I/O — and consequently, over any sequence of
`_fetch_page_content` calls (link-following at any depth only fetches
through this method), every URL is requested at most once and never when it
was already visited at the start. -/
theorem fetch_page_content_at_most_once :
    (∀ (net : String → Option String) (s : EngineState) (url : String),
      url ∈ s.visited → fetchPageContent net s url = (none, s, [])) ∧
    (∀ (net : String → Option String) (s : EngineState) (urls : List String),
      ((runFetches net s urls).2.2).Nodup ∧
      ∀ u ∈ (runFetches net s urls).2.2, u ∉ s.visited) :=
  ⟨fetchPageContent_of_visited,
   fun net s urls =>
     ⟨runFetches_reqs_nodup net urls s, runFetches_reqs_fresh net urls s⟩⟩

/-- Concrete instance of `fetch_page_content_at_most_once`: with `"a"`
already visited, the call is a no-op without network I/O. -/
theorem fetch_page_content_at_most_once_witness :
    fetchPageContent (fun _ => some "page") ⟨["a"]⟩ "a" = (none, ⟨["a"]⟩, []) :=
  fetch_page_content_at_most_once.1 (fun _ => some "page") ⟨["a"]⟩ "a"
    (List.mem_singleton.mpr rfl)

/-- C10 (implicit): `_fetch_page_content` adds the URL to the visited set
*before* attempting the request, so after any first call on a URL — whether
that fetch succeeded or failed — and after any further calls whatsoever in
the same session, a repeated call for that URL returns `None`, leaves the
state unchanged and issues no network request: a failed URL is never
retried within the session and the caller receives `None` for every
repeated URL. -/
theorem fetch_page_content_no_retry_within_session :
    ∀ (net1 net2 : String → Option String) (s : EngineState) (url : String)
      (laterUrls : List String),
      fetchPageContent net2
        ((runFetches net2 ((fetchPageContent net1 s url).2.1) laterUrls).2.1)
        url =
      (none,
       (runFetches net2 ((fetchPageContent net1 s url).2.1) laterUrls).2.1,
       []) := by
  intro net1 net2 s url laterUrls
  apply fetchPageContent_of_visited
  exact runFetches_visited_mono net2 laterUrls (fetchPageContent net1 s url).2.1
    (fetchPageContent_mem_visited net1 s url)

/-! ## Same-domain theorems -/

theorem filterSameDomain_mem (urljoin : String → String → String)
    (netloc : String → String) (base : String) :
    ∀ (hrefs : List String) (links : List String),
      (∀ u ∈ links, extractDomain netloc u = extractDomain netloc base) →
      ∀ u ∈ filterSameDomain urljoin netloc base hrefs links,
        extractDomain netloc u = extractDomain netloc base := by
  intro hrefs
  induction hrefs with
  | nil => intro links hl u hu; exact hl u hu
  | cons href rest ih =>
    intro links hl u hu
    unfold filterSameDomain at hu
    rw [List.foldl_cons] at hu
    by_cases hd : extractDomain netloc (urljoin base href) =
        extractDomain netloc base
    · rw [if_pos hd] at hu
      refine ih (links ++ [urljoin base href]) ?_ u hu
      intro v hv
      rcases List.mem_append.mp hv with h1 | h2
      · exact hl v h1
      · rw [List.mem_singleton.mp h2]
        exact hd
    · rw [if_neg hd] at hu
      exact ih links hl u hu

theorem extractInternalLinks_mem_domain (selAvail : Bool)
    (urljoin : String → String → String) (netloc : String → String)
    (sel1 : Sel1Outcome) (soupHrefs : List String) (base : String) :
    ∀ u ∈ extractInternalLinks selAvail urljoin netloc sel1 soupHrefs base,
      extractDomain netloc u = extractDomain netloc base := by
  intro u hu
  unfold extractInternalLinks at hu
  have hnil : ∀ v ∈ ([] : List String),
      extractDomain netloc v = extractDomain netloc base := by
    intro v hv; exact absurd hv (List.not_mem_nil v)
  by_cases hs : selAvail = true
  · rw [if_pos hs] at hu
    cases sel1 with
    | completed hrefs =>
      simp only [] at hu
      by_cases hne : filterSameDomain urljoin netloc base hrefs [] ≠ []
      · rw [if_pos hne] at hu
        exact filterSameDomain_mem urljoin netloc base hrefs [] hnil u
          (List.dedup_subset _ (List.take_subset 10 _ hu))
      · rw [if_neg hne] at hu
        exact filterSameDomain_mem urljoin netloc base soupHrefs _
          (filterSameDomain_mem urljoin netloc base hrefs [] hnil) u
          (List.dedup_subset _ (List.take_subset 10 _ hu))
    | failed sofar =>
      simp only [] at hu
      exact filterSameDomain_mem urljoin netloc base soupHrefs _
        (filterSameDomain_mem urljoin netloc base sofar [] hnil) u
        (List.dedup_subset _ (List.take_subset 10 _ hu))
  · rw [if_neg hs] at hu
    exact filterSameDomain_mem urljoin netloc base soupHrefs [] hnil u
      (List.dedup_subset _ (List.take_subset 10 _ hu))

/-- C5: Every URL returned by `_extract_internal_links(html, base_url)` —
for any parser-delivered anchor lists, any `urljoin`/`urlparse` behaviour
and any base URL — has `_extract_domain` equal to the base URL's
`_extract_domain` (the host/netloc comparison in the source), and hence a
link extracted at depth 2 from a page reached through a depth-1 link stays
on the origin page's domain as well: link-following never crosses domain
boundaries. -/
theorem extract_internal_links_same_domain :
    (∀ (selAvail : Bool) (urljoin : String → String → String)
       (netloc : String → String) (sel1 : Sel1Outcome)
       (soupHrefs : List String) (base : String),
      ∀ u ∈ extractInternalLinks selAvail urljoin netloc sel1 soupHrefs base,
        extractDomain netloc u = extractDomain netloc base) ∧
    (∀ (selAvail₁ selAvail₂ : Bool) (urljoin : String → String → String)
       (netloc : String → String) (sel1a sel1b : Sel1Outcome)
       (soupHrefs₁ soupHrefs₂ : List String) (base u₁ u₂ : String),
      u₁ ∈ extractInternalLinks selAvail₁ urljoin netloc sel1a soupHrefs₁
        base →
      u₂ ∈ extractInternalLinks selAvail₂ urljoin netloc sel1b soupHrefs₂
        u₁ →
      extractDomain netloc u₂ = extractDomain netloc base) := by
  refine ⟨extractInternalLinks_mem_domain, ?_⟩
  intro selAvail₁ selAvail₂ urljoin netloc sel1a sel1b soupHrefs₁ soupHrefs₂
    base u₁ u₂ h1 h2
  have e1 := extractInternalLinks_mem_domain selAvail₁ urljoin netloc sel1a
    soupHrefs₁ base u₁ h1
  have e2 := extractInternalLinks_mem_domain selAvail₂ urljoin netloc sel1b
    soupHrefs₂ u₁ u₂ h2
  rw [e2, e1]

/-- Concrete instance of `extract_internal_links_same_domain`: with a
degenerate `netloc` and identity-like `urljoin`, the extracted link `"a"`
(at depth 1) and the link `"b"` extracted from it (at depth 2) both share
the base URL's domain. -/
theorem extract_internal_links_same_domain_witness :
    extractDomain (fun _ => "d") "b" =
      extractDomain (fun _ => "d") "https://x/y" :=
  extract_internal_links_same_domain.2 false false (fun _ h => h)
    (fun _ => "d") (.completed []) (.completed []) ["a"] ["b"]
    "https://x/y" "a" "b" (by decide) (by decide)

/-! ## Depth and fan-out bounds for the link-follower -/

theorem fetchPageContent_reqs_len (net : String → Option String)
    (s : EngineState) (url : String) :
    ((fetchPageContent net s url).2.2).length ≤ 1 := by
  unfold fetchPageContent
  by_cases h : url ∈ s.visited
  · rw [if_pos h]; exact Nat.zero_le 1
  · rw [if_neg h]; exact Nat.le_refl 1

theorem filter_of_all_eq {α : Type} (p : α → Bool) (l : List α)
    (h : ∀ a ∈ l, p a = false) : l.filter p = [] :=
  List.filter_eq_nil.mpr (fun a ha => by rw [h a ha]; exact Bool.false_ne_true)

theorem processThirdLevelLink_reqs_eq (net : String → Option String)
    (eT eM : String → String) (s : EngineState) (link : String) :
    (processThirdLevelLink net eT eM s link).2.2 =
      ((fetchPageContent net s link).2.2).map (fun u => (2, u)) := by
  simp only [processThirdLevelLink]
  cases hfc : (fetchPageContent net s link).1 <;> rfl

theorem gatherThird_cons (net : String → Option String)
    (eT eM : String → String) (s : EngineState) (l : String)
    (rest : List String) :
    gatherThird net eT eM s (l :: rest) =
      ((processThirdLevelLink net eT eM s l).1 ::
        (gatherThird net eT eM
          (processThirdLevelLink net eT eM s l).2.1 rest).1,
       (gatherThird net eT eM
          (processThirdLevelLink net eT eM s l).2.1 rest).2.1,
       (processThirdLevelLink net eT eM s l).2.2 ++
        (gatherThird net eT eM
          (processThirdLevelLink net eT eM s l).2.1 rest).2.2) := rfl

theorem gatherThird_reqs (net : String → Option String)
    (eT eM : String → String) :
    ∀ (links : List String) (s : EngineState),
      (∀ p ∈ (gatherThird net eT eM s links).2.2, p.1 = 2) ∧
      ((gatherThird net eT eM s links).2.2).length ≤ links.length := by
  intro links
  induction links with
  | nil =>
    intro s
    exact ⟨fun p hp => absurd hp (List.not_mem_nil p), Nat.le_refl 0⟩
  | cons l rest ih =>
    intro s
    rw [gatherThird_cons]
    have hq1 : ∀ p ∈ (processThirdLevelLink net eT eM s l).2.2, p.1 = 2 := by
      rw [processThirdLevelLink_reqs_eq]
      intro p hp
      rcases List.mem_map.mp hp with ⟨u, _, hu⟩
      rw [← hu]
    have hq1len : ((processThirdLevelLink net eT eM s l).2.2).length ≤ 1 := by
      rw [processThirdLevelLink_reqs_eq, List.length_map]
      exact fetchPageContent_reqs_len net s l
    have hg := ih (processThirdLevelLink net eT eM s l).2.1
    constructor
    · intro p hmem
      rcases List.mem_append.mp hmem with h1 | h2
      · exact hq1 p h1
      · exact hg.1 p h2
    · rw [List.length_append, List.length_cons]
      have := hg.2
      omega

theorem extractThirdLevelContentConcurrent_reqs
    (net : String → Option String) (eT eM : String → String)
    (s : EngineState) (links : List String) :
    (∀ p ∈ (extractThirdLevelContentConcurrent net eT eM s links).2.2,
      p.1 = 2) ∧
    ((extractThirdLevelContentConcurrent net eT eM s links).2.2).length ≤
      links.length := by
  simp only [extractThirdLevelContentConcurrent]
  exact gatherThird_reqs net eT eM links s

theorem processSecondLevelLink_reqs (net : String → Option String)
    (eT eM : String → String) (eL : String → String → List String)
    (s : EngineState) (link : String) :
    (∀ p ∈ (processSecondLevelLink net eT eM eL s link).2.2,
      p.1 = 1 ∨ p.1 = 2) ∧
    (((processSecondLevelLink net eT eM eL s link).2.2).filter
      (fun p => p.1 = 1)).length ≤ 1 ∧
    (((processSecondLevelLink net eT eM eL s link).2.2).filter
      (fun p => p.1 = 2)).length ≤ 2 ∧
    ((processSecondLevelLink net eT eM eL s link).2.2).length ≤ 3 := by
  have hq1len' : ((fetchPageContent net s link).2.2).length ≤ 1 :=
    fetchPageContent_reqs_len net s link
  have htag1 : ∀ p ∈ ((fetchPageContent net s link).2.2).map
      (fun u => ((1 : Nat), u)), p.1 = 1 := by
    intro p hp
    rcases List.mem_map.mp hp with ⟨u, _, hu⟩
    rw [← hu]
  have hf2 : (((fetchPageContent net s link).2.2).map
      (fun u => ((1 : Nat), u))).filter (fun p => p.1 = 2) = [] := by
    refine filter_of_all_eq _ _ ?_
    intro p hp
    rw [htag1 p hp]
    rfl
  have hf1le : ((((fetchPageContent net s link).2.2).map
      (fun u => ((1 : Nat), u))).filter (fun p => p.1 = 1)).length ≤ 1 :=
    Nat.le_trans (List.length_filter_le _ _)
      (by rw [List.length_map]; exact hq1len')
  simp only [processSecondLevelLink]
  cases hfc : (fetchPageContent net s link).1 with
  | none =>
    simp only []
    refine ⟨fun p hp => Or.inl (htag1 p hp), hf1le, ?_, ?_⟩
    · rw [hf2]; exact Nat.zero_le 2
    · rw [List.length_map]; omega
  | some c =>
    simp only []
    by_cases hil : eL c link ≠ []
    · rw [if_pos hil]
      simp only []
      have h3 := extractThirdLevelContentConcurrent_reqs net eT eM
        (fetchPageContent net s link).2.1 ((eL c link).take 2)
      have h3len : ((extractThirdLevelContentConcurrent net eT eM
          (fetchPageContent net s link).2.1
          ((eL c link).take 2)).2.2).length ≤ 2 := by
        refine Nat.le_trans h3.2 ?_
        rw [List.length_take]
        exact Nat.min_le_left 2 _
      have h3f1 : ((extractThirdLevelContentConcurrent net eT eM
          (fetchPageContent net s link).2.1
          ((eL c link).take 2)).2.2).filter (fun p => p.1 = 1) = [] := by
        refine filter_of_all_eq _ _ ?_
        intro p hp
        rw [h3.1 p hp]
        rfl
      refine ⟨?_, ?_, ?_, ?_⟩
      · intro p hp
        rcases List.mem_append.mp hp with h1 | h2
        · exact Or.inl (htag1 p h1)
        · exact Or.inr (h3.1 p h2)
      · rw [List.filter_append, List.length_append, h3f1]
        simpa using hf1le
      · rw [List.filter_append, List.length_append, hf2]
        have h2le : (((extractThirdLevelContentConcurrent net eT eM
            (fetchPageContent net s link).2.1
            ((eL c link).take 2)).2.2).filter
              (fun p => p.1 = 2)).length ≤ 2 :=
          Nat.le_trans (List.length_filter_le _ _) h3len
        simpa using h2le
      · rw [List.length_append, List.length_map]
        omega
    · rw [if_neg hil]
      refine ⟨fun p hp => Or.inl (htag1 p hp), hf1le, ?_, ?_⟩
      · rw [hf2]; exact Nat.zero_le 2
      · rw [List.length_map]; omega

theorem gatherSecond_cons (net : String → Option String)
    (eT eM : String → String) (eL : String → String → List String)
    (s : EngineState) (l : String) (rest : List String) :
    gatherSecond net eT eM eL s (l :: rest) =
      ((processSecondLevelLink net eT eM eL s l).1 ::
        (gatherSecond net eT eM eL
          (processSecondLevelLink net eT eM eL s l).2.1 rest).1,
       (gatherSecond net eT eM eL
          (processSecondLevelLink net eT eM eL s l).2.1 rest).2.1,
       (processSecondLevelLink net eT eM eL s l).2.2 ++
        (gatherSecond net eT eM eL
          (processSecondLevelLink net eT eM eL s l).2.1 rest).2.2) := rfl

theorem gatherSecond_reqs (net : String → Option String)
    (eT eM : String → String) (eL : String → String → List String) :
    ∀ (links : List String) (s : EngineState),
      (∀ p ∈ (gatherSecond net eT eM eL s links).2.2,
        p.1 = 1 ∨ p.1 = 2) ∧
      (((gatherSecond net eT eM eL s links).2.2).filter
        (fun p => p.1 = 1)).length ≤ links.length ∧
      (((gatherSecond net eT eM eL s links).2.2).filter
        (fun p => p.1 = 2)).length ≤ 2 * links.length ∧
      ((gatherSecond net eT eM eL s links).2.2).length ≤
        3 * links.length := by
  intro links
  induction links with
  | nil =>
    intro s
    refine ⟨fun p hp => absurd hp (List.not_mem_nil p), ?_, ?_, ?_⟩ <;>
      simp [gatherSecond]
  | cons l rest ih =>
    intro s
    rw [gatherSecond_cons]
    have hp := processSecondLevelLink_reqs net eT eM eL s l
    have hg := ih (processSecondLevelLink net eT eM eL s l).2.1
    refine ⟨?_, ?_, ?_, ?_⟩
    · intro p hmem
      rcases List.mem_append.mp hmem with h1 | h2
      · exact hp.1 p h1
      · exact hg.1 p h2
    · rw [List.filter_append, List.length_append, List.length_cons]
      have := hp.2.1
      have := hg.2.1
      omega
    · rw [List.filter_append, List.length_append, List.length_cons]
      have := hp.2.2.1
      have := hg.2.2.1
      omega
    · rw [List.length_append, List.length_cons]
      have := hp.2.2.2
      have := hg.2.2.2
      omega

theorem extractSecondLevelContent_reqs (net : String → Option String)
    (eT eM : String → String) (eL : String → String → List String)
    (s : EngineState) (url : String) (internalLinks : List String) :
    (∀ p ∈ (extractSecondLevelContent net eT eM eL s url
        internalLinks 3).2.2, p.1 = 1 ∨ p.1 = 2) ∧
    (((extractSecondLevelContent net eT eM eL s url
        internalLinks 3).2.2).filter (fun p => p.1 = 1)).length ≤ 3 ∧
    (((extractSecondLevelContent net eT eM eL s url
        internalLinks 3).2.2).filter (fun p => p.1 = 2)).length ≤ 6 ∧
    ((extractSecondLevelContent net eT eM eL s url
        internalLinks 3).2.2).length ≤ 9 := by
  have hg := gatherSecond_reqs net eT eM eL (internalLinks.take 3) s
  have htk : (internalLinks.take 3).length ≤ 3 := by
    rw [List.length_take]
    exact Nat.min_le_left 3 _
  simp only [extractSecondLevelContent]
  refine ⟨hg.1, ?_, ?_, ?_⟩
  · have := hg.2.1; omega
  · have := hg.2.2.1; omega
  · have := hg.2.2.2; omega

/-- C3: For one origin page, regardless of how many links any page exposes
(the link-extraction oracle `eL` is arbitrary): every request the
link-follower issues is at depth ≤ 2 (recursion never proceeds past depth
2 — the third level is structurally terminal), at most 10 pages are fetched
at depth 1 (the code in fact fetches at most `max_links = 3`), at most
3 × 2 = 6 at depth 2 (at most 3 second-level pages expanded, each into at
most 2 third-level links), and the total number of fetched pages is at most
1 + 10 + 3·2 = 17 (in fact at most 10). -/
theorem link_follower_depth_and_fanout_bounded :
    ∀ (net : String → Option String) (eT eM : String → String)
      (eL : String → String → List String) (s : EngineState)
      (targetUrl : String),
      (∀ p ∈ (followOriginPage net eT eM eL s targetUrl).2.2, p.1 ≤ 2) ∧
      (((followOriginPage net eT eM eL s targetUrl).2.2).filter
        (fun p => p.1 = 0)).length ≤ 1 ∧
      (((followOriginPage net eT eM eL s targetUrl).2.2).filter
        (fun p => p.1 = 1)).length ≤ 10 ∧
      (((followOriginPage net eT eM eL s targetUrl).2.2).filter
        (fun p => p.1 = 2)).length ≤ 6 ∧
      ((followOriginPage net eT eM eL s targetUrl).2.2).length ≤ 17 := by
  intro net eT eM eL s targetUrl
  have hq0len : ((fetchPageContent net s targetUrl).2.2).length ≤ 1 :=
    fetchPageContent_reqs_len net s targetUrl
  have htag0 : ∀ p ∈ ((fetchPageContent net s targetUrl).2.2).map
      (fun u => ((0 : Nat), u)), p.1 = 0 := by
    intro p hp
    rcases List.mem_map.mp hp with ⟨u, _, hu⟩
    rw [← hu]
  have h0len : (((fetchPageContent net s targetUrl).2.2).map
      (fun u => ((0 : Nat), u))).length ≤ 1 := by
    rw [List.length_map]; exact hq0len
  have hf0 : ∀ d : Nat, d ≠ 0 →
      (((fetchPageContent net s targetUrl).2.2).map
        (fun u => ((0 : Nat), u))).filter (fun p => p.1 = d) = [] := by
    intro d hd
    refine filter_of_all_eq _ _ ?_
    intro p hp
    rw [htag0 p hp]
    simp [Ne.symm hd]
  simp only [followOriginPage]
  cases hfc : (fetchPageContent net s targetUrl).1 with
  | none =>
    simp only []
    refine ⟨fun p hp => by rw [htag0 p hp]; omega, ?_, ?_, ?_, ?_⟩
    · exact Nat.le_trans (List.length_filter_le _ _) h0len
    · rw [hf0 1 (by omega)]; exact Nat.zero_le 10
    · rw [hf0 2 (by omega)]; exact Nat.zero_le 6
    · exact Nat.le_trans h0len (by omega)
  | some c =>
    simp only []
    have hsl := extractSecondLevelContent_reqs net eT eM eL
      (fetchPageContent net s targetUrl).2.1 targetUrl (eL c targetUrl)
    have hsl_len : ((extractSecondLevelContent net eT eM eL
        (fetchPageContent net s targetUrl).2.1 targetUrl
        (eL c targetUrl) 3).2.2).length ≤ 9 := hsl.2.2.2
    have hslf0 : ((extractSecondLevelContent net eT eM eL
        (fetchPageContent net s targetUrl).2.1 targetUrl
        (eL c targetUrl) 3).2.2).filter (fun p => p.1 = 0) = [] := by
      refine filter_of_all_eq _ _ ?_
      intro p hp
      rcases hsl.1 p hp with h1 | h2
      · rw [h1]; rfl
      · rw [h2]; rfl
    refine ⟨?_, ?_, ?_, ?_, ?_⟩
    · intro p hp
      rcases List.mem_append.mp hp with h1 | h2
      · rw [htag0 p h1]; omega
      · rcases hsl.1 p h2 with h1 | h1 <;> omega
    · rw [List.filter_append, List.length_append, hslf0]
      have : ((((fetchPageContent net s targetUrl).2.2).map
          (fun u => ((0 : Nat), u))).filter (fun p => p.1 = 0)).length ≤ 1 :=
        Nat.le_trans (List.length_filter_le _ _) h0len
      simpa using this
    · rw [List.filter_append, List.length_append, hf0 1 (by omega)]
      have := hsl.2.1
      simp only [List.length_nil, Nat.zero_add]
      omega
    · rw [List.filter_append, List.length_append, hf0 2 (by omega)]
      have := hsl.2.2.1
      simp only [List.length_nil, Nat.zero_add]
      omega
    · rw [List.length_append]
      omega

/-! ## Failure isolation in the link-follower -/

theorem dictInsert_keys {α : Type} (m : List (String × α)) (k l : String)
    (v : α) :
    (∃ e, (l, e) ∈ dictInsert m k v) ↔ (∃ e, (l, e) ∈ m) ∨ l = k := by
  unfold dictInsert
  by_cases hany : m.any (fun p => p.1 = k) = true
  · rw [if_pos hany]
    constructor
    · rintro ⟨e, he⟩
      rcases List.mem_map.mp he with ⟨p, hp, hfp⟩
      by_cases hpk : p.1 = k
      · rw [if_pos hpk] at hfp
        exact Or.inr (congrArg Prod.fst hfp.symm)
      · rw [if_neg hpk] at hfp
        exact Or.inl ⟨e, hfp ▸ hp⟩
    · rintro (⟨e, he⟩ | rfl)
      · by_cases hlk : l = k
        · subst hlk
          rcases List.any_eq_true.mp hany with ⟨p, hp, hpk⟩
          refine ⟨v, List.mem_map.mpr ⟨p, hp, ?_⟩⟩
          rw [if_pos (of_decide_eq_true hpk)]
        · refine ⟨e, List.mem_map.mpr ⟨(l, e), he, ?_⟩⟩
          rw [if_neg hlk]
      · rcases List.any_eq_true.mp hany with ⟨p, hp, hpk⟩
        refine ⟨v, List.mem_map.mpr ⟨p, hp, ?_⟩⟩
        rw [if_pos (of_decide_eq_true hpk)]
  · rw [if_neg hany]
    constructor
    · rintro ⟨e, he⟩
      rcases List.mem_append.mp he with h1 | h2
      · exact Or.inl ⟨e, h1⟩
      · rw [List.mem_singleton] at h2
        exact Or.inr (congrArg Prod.fst h2)
    · rintro (⟨e, he⟩ | rfl)
      · exact ⟨e, List.mem_append.mpr (Or.inl he)⟩
      · exact ⟨v, List.mem_append.mpr (Or.inr (List.mem_singleton.mpr rfl))⟩

theorem assembleEntries_foldl_keys {α : Type} :
    ∀ (rs : List (String × Option α)) (acc : List (String × α)) (l : String),
      (∃ e, (l, e) ∈ rs.foldl
        (fun acc p =>
          match p.2 with
          | some e => dictInsert acc p.1 e
          | none => acc) acc) ↔
      (∃ e, (l, e) ∈ acc) ∨ (∃ e, (l, some e) ∈ rs) := by
  intro rs
  induction rs with
  | nil =>
    intro acc l
    simp
  | cons hd tl ih =>
    intro acc l
    rw [List.foldl_cons]
    cases hhd : hd.2 with
    | none =>
      simp only [hhd]
      rw [ih acc l]
      constructor
      · rintro (h | ⟨e, he⟩)
        · exact Or.inl h
        · exact Or.inr ⟨e, List.mem_cons_of_mem hd he⟩
      · rintro (h | ⟨e, he⟩)
        · exact Or.inl h
        · rcases List.mem_cons.mp he with h1 | h2
          · exfalso
            have : hd.2 = some e := by
              rw [← h1]
            rw [hhd] at this
            exact Option.noConfusion this
          · exact Or.inr ⟨e, h2⟩
    | some v =>
      simp only [hhd]
      rw [ih (dictInsert acc hd.1 v) l]
      rw [dictInsert_keys acc hd.1 l v]
      constructor
      · rintro ((h | rfl) | ⟨e, he⟩)
        · exact Or.inl h
        · exact Or.inr ⟨v, List.mem_cons.mpr (Or.inl (by rw [← hhd]))⟩
        · exact Or.inr ⟨e, List.mem_cons_of_mem hd he⟩
      · rintro (h | ⟨e, he⟩)
        · exact Or.inl (Or.inl h)
        · rcases List.mem_cons.mp he with h1 | h2
          · have h1' : hd.1 = l := congrArg Prod.fst h1.symm
            exact Or.inl (Or.inr h1'.symm)
          · exact Or.inr ⟨e, h2⟩

theorem assembleEntries_keys {α : Type} (rs : List (String × Option α))
    (l : String) :
    (∃ e, (l, e) ∈ assembleEntries rs) ↔ ∃ e, (l, some e) ∈ rs := by
  unfold assembleEntries
  rw [assembleEntries_foldl_keys rs [] l]
  simp

theorem gatherSecond_fst_length (net : String → Option String)
    (eT eM : String → String) (eL : String → String → List String) :
    ∀ (links : List String) (s : EngineState),
      ((gatherSecond net eT eM eL s links).1).length = links.length := by
  intro links
  induction links with
  | nil => intro s; rfl
  | cons l rest ih =>
    intro s
    rw [gatherSecond_cons]
    simp only [List.length_cons]
    rw [ih]

theorem processSecondLevelLink_fst_of_fail (net : String → Option String)
    (eT eM : String → String) (eL : String → String → List String)
    (s : EngineState) (link : String)
    (h : (fetchPageContent net s link).1 = none) :
    (processSecondLevelLink net eT eM eL s link).1 = (link, none) := by
  simp only [processSecondLevelLink, h]

theorem gatherThird_fst_length (net : String → Option String)
    (eT eM : String → String) :
    ∀ (links : List String) (s : EngineState),
      ((gatherThird net eT eM s links).1).length = links.length := by
  intro links
  induction links with
  | nil => intro s; rfl
  | cons l rest ih =>
    intro s
    rw [gatherThird_cons]
    simp only [List.length_cons]
    rw [ih]

theorem processThirdLevelLink_fst_of_fail (net : String → Option String)
    (eT eM : String → String) (s : EngineState) (link : String)
    (h : (fetchPageContent net s link).1 = none) :
    (processThirdLevelLink net eT eM s link).1 = (link, none) := by
  simp only [processThirdLevelLink, h]

/-- C8 counterexample: two sibling links `"a"` and `"b"` where fetching
`"a"` fails and `"b"` succeeds.  The failed link's task yields `("a", {})`,
but the assembly loop skips empty dicts, so the assembled second-level map
contains an entry for the surviving sibling `"b"` and *no entry at all*
(in particular no empty entry) for `"a"` — refuting the claim that a
failure "yields an empty entry for that link in the assembled nested
result map". -/
theorem second_level_failed_link_omitted_counterexample :
    ((extractSecondLevelContent (fun u => if u = "b" then some "B" else none)
        (fun _ => "t") (fun _ => "m") (fun _ _ => []) ⟨[]⟩ "origin"
        ["a", "b"] 3).1 =
      [("b", ⟨"t", "m", 1, [], none⟩)]) ∧
    ¬ ∃ e, ("a", e) ∈ (extractSecondLevelContent
        (fun u => if u = "b" then some "B" else none)
        (fun _ => "t") (fun _ => "m") (fun _ _ => []) ⟨[]⟩ "origin"
        ["a", "b"] 3).1 := by
  constructor
  · rfl
  · rintro ⟨e, he⟩
    rw [show (extractSecondLevelContent
        (fun u => if u = "b" then some "B" else none)
        (fun _ => "t") (fun _ => "m") (fun _ _ => []) ⟨[]⟩ "origin"
        ["a", "b"] 3).1 =
      [("b", ⟨"t", "m", 1, [], none⟩)] from rfl] at he
    rw [List.mem_singleton] at he
    have : "a" = "b" := congrArg Prod.fst he
    exact absurd this (by decide)

/-- C8 (amended): a failure in fetching any one link at any depth is
caught and yields an empty task result `(link, {})` — at the second level
(`process_second_level_link`) and at the third level
(`process_third_level_link`) alike — which the assembly loop of the
respective level then *omits* from the assembled nested result map (the
failed link gets no entry); sibling links are never aborted — at either
level every selected link yields a task result, and a link has an entry in
the assembled map exactly when one of its task results carried content. -/
theorem second_level_failure_isolated :
    (∀ (net : String → Option String) (eT eM : String → String)
       (eL : String → String → List String) (s : EngineState)
       (link : String),
      (fetchPageContent net s link).1 = none →
      (processSecondLevelLink net eT eM eL s link).1 = (link, none)) ∧
    (∀ (net : String → Option String) (eT eM : String → String)
       (s : EngineState) (link : String),
      (fetchPageContent net s link).1 = none →
      (processThirdLevelLink net eT eM s link).1 = (link, none)) ∧
    (∀ (net : String → Option String) (eT eM : String → String)
       (eL : String → String → List String) (s : EngineState)
       (url : String) (links : List String),
      ((gatherSecond net eT eM eL s (links.take 3)).1).length =
        (links.take 3).length ∧
      (∀ l, (∃ e, (l, e) ∈ (extractSecondLevelContent net eT eM eL s url
          links 3).1) ↔
        (∃ e, (l, some e) ∈ (gatherSecond net eT eM eL s
          (links.take 3)).1))) ∧
    (∀ (net : String → Option String) (eT eM : String → String)
       (s : EngineState) (thirdLinks : List String),
      ((gatherThird net eT eM s thirdLinks).1).length = thirdLinks.length ∧
      (∀ l, (∃ e, (l, e) ∈ (extractThirdLevelContentConcurrent net eT eM s
          thirdLinks).1) ↔
        (∃ e, (l, some e) ∈ (gatherThird net eT eM s thirdLinks).1))) := by
  refine ⟨processSecondLevelLink_fst_of_fail,
    processThirdLevelLink_fst_of_fail, ?_, ?_⟩
  · intro net eT eM eL s url links
    refine ⟨gatherSecond_fst_length net eT eM eL (links.take 3) s, ?_⟩
    intro l
    have heq : (extractSecondLevelContent net eT eM eL s url links 3).1 =
        assembleEntries (gatherSecond net eT eM eL s (links.take 3)).1 := rfl
    rw [heq]
    exact assembleEntries_keys _ l
  · intro net eT eM s thirdLinks
    refine ⟨gatherThird_fst_length net eT eM thirdLinks s, ?_⟩
    intro l
    have heq : (extractThirdLevelContentConcurrent net eT eM s
        thirdLinks).1 =
        assembleEntries (gatherThird net eT eM s thirdLinks).1 := rfl
    rw [heq]
    exact assembleEntries_keys _ l

/-- Concrete instance of `second_level_failure_isolated`: a link whose
fetch fails produces the empty task result at the second level and at the
third level. -/
theorem second_level_failure_isolated_witness :
    (processSecondLevelLink (fun _ => none) (fun _ => "t") (fun _ => "m")
      (fun _ _ => []) ⟨[]⟩ "x").1 = ("x", none) ∧
    (processThirdLevelLink (fun _ => none) (fun _ => "t") (fun _ => "m")
      ⟨[]⟩ "y").1 = ("y", none) :=
  ⟨second_level_failure_isolated.1 (fun _ => none) (fun _ => "t")
     (fun _ => "m") (fun _ _ => []) ⟨[]⟩ "x" rfl,
   second_level_failure_isolated.2.1 (fun _ => none) (fun _ => "t")
     (fun _ => "m") ⟨[]⟩ "y" rfl⟩

/-! ## Paywall-bypass and exhaustion theorems -/

theorem paywallLoop_first_clean (o : FetchOracle) (url : String) :
    ∀ (fb : List String) (content : String) (i : Nat) (a t : String),
      fb[i]? = some a →
      o.archiveResp (a ++ url) = some (200, t) →
      detectPaywall t = false →
      (∀ j, j < i → ∀ a', fb[j]? = some a' →
        ∀ st tx, o.archiveResp (a' ++ url) = some (st, tx) →
          ¬(st = 200 ∧ detectPaywall tx = false)) →
      paywallLoop o url fb content = t := by
  intro fb
  induction fb with
  | nil =>
    intro content i a t hget
    simp at hget
  | cons a0 rest ih =>
    intro content i a t hget hresp hclean hearlier
    cases i with
    | zero =>
      rw [List.getElem?_cons_zero, Option.some_inj] at hget
      subst hget
      unfold paywallLoop
      rw [hresp]
      simp [hclean]
    | succ j =>
      rw [List.getElem?_cons_succ] at hget
      have h0 := hearlier 0 (Nat.succ_pos j) a0 List.getElem?_cons_zero
      have htail := ih content j a t hget hresp hclean
        (fun k hk a' ha' => hearlier (k + 1) (Nat.succ_lt_succ hk) a'
          (by rw [List.getElem?_cons_succ]; exact ha'))
      unfold paywallLoop
      cases hr0 : o.archiveResp (a0 ++ url) with
      | none => exact htail
      | some p =>
        cases p with
        | mk st tx =>
          have hnot := h0 st tx hr0
          simp only []
          by_cases hst : st = 200
          · rw [if_pos hst]
            cases hpwc : detectPaywall tx with
            | false => exact absurd ⟨hst, hpwc⟩ hnot
            | true =>
              rw [if_neg (fun hcontra => Bool.noConfusion hcontra)]
              exact htail
          · rw [if_neg hst]
            exact htail

/-- C2 counterexample to the claim as frozen: the plain client fetches a
paywalled body, and a configured archive mirror (the second one) answers
HTTP 200 with clean non-empty content `"good text"` — the claim's premise —
so the claim promises the fetch returns `"good text"`.  But the *first*
mirror answers HTTP 200 with an *empty* body, which trips no paywall
indicator either; the loop's replacement test (`status == 200 and not
detect_paywall(...)`) selects it and breaks, `content` becomes `""`, and
the call then raises instead of returning the clean mirror's content. -/
theorem base_fetch_url_paywall_archive_counterexample :
    (ARCHIVE_FALLBACKS[1]? = some "https://12ft.io/proxy?q=") ∧
    ((⟨false, none, some "please subscribe now", none, fun _ => none,
        fun au => if au = "https://archive.is/?url=" ++ "u"
          then some (200, "") else some (200, "good text"),
        []⟩ : FetchOracle).archiveResp ("https://12ft.io/proxy?q=" ++ "u") =
      some (200, "good text")) ∧
    detectPaywall "good text" = false ∧
    "good text" ≠ "" ∧
    contentAfterArchive
      ⟨false, none, some "please subscribe now", none, fun _ => none,
       fun au => if au = "https://archive.is/?url=" ++ "u"
         then some (200, "") else some (200, "good text"),
       []⟩ = some "please subscribe now" ∧
    detectPaywall "please subscribe now" = true ∧
    baseFetchUrl
      ⟨false, none, some "please subscribe now", none, fun _ => none,
       fun au => if au = "https://archive.is/?url=" ++ "u"
         then some (200, "") else some (200, "good text"),
       []⟩ "u" = .error (fetchErrMsg "u") := by
  refine ⟨rfl, ?_, ?_, ?_, rfl, ?_, ?_⟩
  · decide
  · decide
  · decide
  · decide
  · rfl

/-- C2 (amended): if the content obtained by the client/archive stages
trips paywall detection, and the `i`-th configured archive mirror is the
first whose response comes back HTTP 200 with a body that does not itself
trip paywall detection (every earlier mirror either raised, returned
non-200, or returned a paywalled copy — an earlier *empty* clean 200 body
would instead be selected and make the call fail), and that body is
non-empty, then `base_fetch_url` returns that mirror's content, not the
paywalled content (stated with OCR finding no image text, so the body is
returned verbatim). -/
theorem base_fetch_url_paywall_first_clean_archive :
    ∀ (o : FetchOracle) (url : String) (c : String) (i : Nat) (a t : String),
      contentAfterArchive o = some c →
      c ≠ "" →
      detectPaywall c = true →
      ARCHIVE_FALLBACKS[i]? = some a →
      o.archiveResp (a ++ url) = some (200, t) →
      detectPaywall t = false →
      t ≠ "" →
      (∀ j, j < i → ∀ a', ARCHIVE_FALLBACKS[j]? = some a' →
        ∀ st tx, o.archiveResp (a' ++ url) = some (st, tx) →
          ¬(st = 200 ∧ detectPaywall tx = false)) →
      o.ocrTexts = [] →
      baseFetchUrl o url = .ok t := by
  intro o url c i a t harch hne hpaid hget hresp hclean htne hearlier hocr
  have hloop : paywallLoop o url ARCHIVE_FALLBACKS c = t :=
    paywallLoop_first_clean o url ARCHIVE_FALLBACKS c i a t hget hresp
      hclean hearlier
  unfold baseFetchUrl contentAfterPaywall
  rw [harch]
  simp only []
  rw [if_pos (by rw [hpaid]; simpa using hne)]
  simp only []
  rw [hloop, if_neg htne]
  unfold withOcr
  rw [if_pos hocr]

/-- Concrete instance of `base_fetch_url_paywall_first_clean_archive`: the
plain client fetches a paywalled body (`"please subscribe now"`), the first
archive mirror answers 200 with a clean body, and the orchestrator returns
the archive body. -/
theorem base_fetch_url_paywall_first_clean_archive_witness :
    baseFetchUrl
      ⟨false, none, some "please subscribe now", none, fun _ => none,
       fun au => if au = "https://archive.is/?url=" ++ "u"
         then some (200, "clean page text") else none, []⟩ "u" =
      .ok "clean page text" :=
  base_fetch_url_paywall_first_clean_archive
    ⟨false, none, some "please subscribe now", none, fun _ => none,
     fun au => if au = "https://archive.is/?url=" ++ "u"
       then some (200, "clean page text") else none, []⟩
    "u" "please subscribe now" 0 "https://archive.is/?url="
    "clean page text" rfl (by decide) (by decide) rfl (by decide)
    (by decide) (by decide)
    (fun j hj => absurd hj (Nat.not_lt_zero j)) rfl

/-- C7 counterexample: the plain HTTP client *does* obtain content
(`"please subscribe now"`, non-empty), but because that content trips
paywall detection and the first archive mirror answers HTTP 200 with an
*empty* body — which trips no paywall indicator — the paywall-bypass loop
replaces the content with `""` and the call then raises the retrieval
error.  So "whenever some stage obtained content, the call returns that
content normally instead of raising" is false, and exhaustion is not the
only condition under which the error fires. -/
theorem base_fetch_url_error_despite_content_counterexample :
    (falsy (contentAfterClients
      ⟨false, none, some "please subscribe now", none, fun _ => none,
       fun _ => some (200, ""), []⟩) = false) ∧
    baseFetchUrl
      ⟨false, none, some "please subscribe now", none, fun _ => none,
       fun _ => some (200, ""), []⟩ "u" =
      .error (fetchErrMsg "u") := by
  constructor
  · rfl
  · rfl

/-- C7 (amended): `base_fetch_url` raises exactly when the content left
after the client stages, the archive fallback and the paywall-replacement
step is absent or empty, and the error it raises names the requested URL;
whenever that final content is non-empty the call returns it (with any OCR
text appended) instead of raising.  In particular, if no stage produced
content the call fails — but the converse direction of the original claim
is weaker than stated: paywall replacement may overwrite obtained content
with an empty HTTP-200 archive body, making the call fail although a stage
had produced content. -/
theorem base_fetch_url_error_iff_final_empty :
    ∀ (o : FetchOracle) (url : String),
      ((∃ e, baseFetchUrl o url = .error e) ↔
        falsy (contentAfterPaywall o url) = true) ∧
      (∀ e, baseFetchUrl o url = .error e →
        e = fetchErrMsg url ∧ strContains e url = true) ∧
      (∀ t, contentAfterPaywall o url = some t → t ≠ "" →
        baseFetchUrl o url = .ok (withOcr o t)) ∧
      (falsy (contentAfterArchive o) = true →
        baseFetchUrl o url = .error (fetchErrMsg url)) := by
  intro o url
  refine ⟨?_, ?_, ?_, ?_⟩
  · constructor
    · rintro ⟨e, he⟩
      unfold baseFetchUrl at he
      cases hc : contentAfterPaywall o url with
      | none => rfl
      | some t =>
        rw [hc] at he
        simp only [] at he
        by_cases ht : t = ""
        · rw [ht]
          rfl
        · rw [if_neg ht] at he
          exact Except.noConfusion he
    · intro hf
      unfold baseFetchUrl
      cases hc : contentAfterPaywall o url with
      | none => exact ⟨fetchErrMsg url, rfl⟩
      | some t =>
        rw [hc] at hf
        unfold falsy at hf
        have ht : t = "" := (String.isEmpty_iff t).mp hf
        simp only []
        rw [if_pos ht]
        exact ⟨fetchErrMsg url, rfl⟩
  · intro e he
    unfold baseFetchUrl at he
    have hmsg : e = fetchErrMsg url := by
      cases hc : contentAfterPaywall o url with
      | none =>
        rw [hc] at he
        simp only [] at he
        exact (Except.error.inj he).symm
      | some t =>
        rw [hc] at he
        simp only [] at he
        by_cases ht : t = ""
        · rw [if_pos ht] at he
          exact (Except.error.inj he).symm
        · rw [if_neg ht] at he
          exact Except.noConfusion he
    refine ⟨hmsg, ?_⟩
    rw [hmsg]
    exact strContains_append_right "Fetch failed: Failed to fetch content from " url
  · intro t hc ht
    unfold baseFetchUrl
    rw [hc]
    simp only []
    rw [if_neg ht]
  · intro hf
    unfold baseFetchUrl
    cases hc : contentAfterPaywall o url with
    | none => rfl
    | some t =>
      have ht : t = "" := by
        unfold contentAfterPaywall at hc
        cases ha : contentAfterArchive o with
        | none => rw [ha] at hc; exact Option.noConfusion hc
        | some c =>
          rw [ha] at hf
          unfold falsy at hf
          have hce : c = "" := (String.isEmpty_iff c).mp hf
          rw [ha] at hc
          simp only [] at hc
          rw [if_neg (by rw [hce]; simp)] at hc
          rw [Option.some_inj] at hc
          rw [← hc, hce]
      simp only []
      rw [if_pos ht]

/-- Concrete instance of `base_fetch_url_error_iff_final_empty`: a plain
client body with no paywall indicators is returned as-is. -/
theorem base_fetch_url_error_iff_final_empty_witness :
    baseFetchUrl
      ⟨false, none, some "hello world", none, fun _ => none,
       fun _ => none, []⟩ "u" =
      .ok (withOcr
        ⟨false, none, some "hello world", none, fun _ => none,
         fun _ => none, []⟩ "hello world") :=
  (base_fetch_url_error_iff_final_empty
    ⟨false, none, some "hello world", none, fun _ => none,
     fun _ => none, []⟩ "u").2.2.1 "hello world" (by decide) (by decide)

/-- Concrete instance of `link_follower_depth_and_fanout_bounded`: an
origin page with no internal links issues the single depth-0 request, its
request trace is within every bound, and the one recorded request is at
depth ≤ 2. -/
theorem link_follower_depth_and_fanout_bounded_witness :
    ((followOriginPage (fun _ => some "h") (fun _ => "t") (fun _ => "m")
      (fun _ _ => []) ⟨[]⟩ "u").2.2).length ≤ 17 ∧
    (((0 : Nat), "u")).1 ≤ 2 :=
  ⟨(link_follower_depth_and_fanout_bounded (fun _ => some "h")
      (fun _ => "t") (fun _ => "m") (fun _ _ => []) ⟨[]⟩ "u").2.2.2.2,
   (link_follower_depth_and_fanout_bounded (fun _ => some "h")
      (fun _ => "t") (fun _ => "m") (fun _ _ => []) ⟨[]⟩ "u").1
     ((0 : Nat), "u") (by decide)⟩
